import Mathlib

/-!
Verification of the language-intelligence layer of the mermaid-viewer
repository (src/components/MermaidEditor.tsx and MermaidViewer.tsx).

The embedding below translates the source directly:
  * text is `List Char`; JavaScript `String.prototype.trim` becomes `trim`;
  * the Monarch tokenizer rules become `rootStep` / `stringStep` / `classify`;
  * the document formatter becomes `formatLine` / `formatLines` / `format`;
  * the marker construction of the validation `catch` block becomes
    `markersForError` / `validateMarkers`;
  * the debounced validation effect becomes the transition system
    `pstep` / `prun` over `PState`;
  * the completion provider becomes `provideCompletionItems`;
  * the guarded language registration becomes `handleEditorWillMount`
    over an abstract `MonacoState` registry.
-/

namespace Mermaid

/-- ASCII whitespace stripped by JavaScript `trim` (space, tab, vertical tab,
form feed, carriage return, newline). -/
def isWS (c : Char) : Bool :=
  c == ' ' || c == '\t' || c == '\x0b' || c == '\x0c' || c == '\r' || c == '\n'

/-- JavaScript regex word character `\w`, used by the word-boundary `\b`
in the formatter's `blockOpeners` / `blockClosers` regexes. -/
def isWordChar (c : Char) : Bool :=
  ('a' ≤ c && c ≤ 'z') || ('A' ≤ c && c ≤ 'Z') || ('0' ≤ c && c ≤ '9') || c == '_'

/-- Character class `[\w$]` of the tokenizer's identifier rule. -/
def isWordDollar (c : Char) : Bool :=
  isWordChar c || c == '$'

/-- Character class `[a-zA-Z]` starting the tokenizer's identifier rule. -/
def isAlphaAZ (c : Char) : Bool :=
  ('a' ≤ c && c ≤ 'z') || ('A' ≤ c && c ≤ 'Z')

/-- Strip leading whitespace. -/
def trimL (l : List Char) : List Char := l.dropWhile isWS

/-- Strip trailing whitespace. -/
def trimR (l : List Char) : List Char := l.rdropWhile isWS

/-- JavaScript `line.trim()`. -/
def trim (l : List Char) : List Char := trimR (trimL l)

/-- JavaScript `text.split("\n")`. -/
def splitNl : List Char → List (List Char)
  | [] => [[]]
  | c :: r =>
    if c = '\n' then [] :: splitNl r
    else
      match splitNl r with
      | [] => [[c]]
      | h :: t => (c :: h) :: t

/-- JavaScript `lines.join("\n")`. -/
def joinNl : List (List Char) → List Char
  | [] => []
  | [l] => l
  | l :: l' :: ls => l ++ '\n' :: joinNl (l' :: ls)

/-- Tests whether the keyword `k` occurs at the start of `t` followed by a
word boundary: this is exactly what the anchored regex `/^(k)\b/` tests for a
keyword `k` that ends in a word character (all formatter keywords do). -/
def startsWithKw : List Char → List Char → Bool
  | [], [] => true
  | [], c :: _ => !isWordChar c
  | _ :: _, [] => false
  | a :: k, b :: t => a == b && startsWithKw k t

/-- The closing keyword of the formatter regex `/^end\b/`. -/
def endKw : List Char := "end".toList

/-- The alternatives of the formatter regex `blockOpeners`, in source order. -/
def blockOpenerKws : List (List Char) :=
  ["graph", "flowchart", "subgraph", "sequenceDiagram", "classDiagram",
   "stateDiagram", "stateDiagram-v2", "erDiagram", "gantt", "pie",
   "journey", "mindmap", "timeline", "block-beta"].map String.toList

/-- `blockClosers.test(line)`: the regex `/^end\b/`. -/
def blockClosers (t : List Char) : Bool := startsWithKw endKw t

/-- `blockOpeners.test(line)`: the anchored alternation matches iff some
alternative is a prefix of the line followed by a word boundary. -/
def blockOpeners (t : List Char) : Bool :=
  blockOpenerKws.any fun k => startsWithKw k t

/-- `const indentSize = 4`. -/
def indentSize : Nat := 4

/-- One iteration of the formatter loop: trim the line; blank lines are
emitted empty; otherwise decrement the level (floored at 0) before emitting
when `blockClosers` matches, emit `indentLevel * indentSize` spaces plus the
trimmed line, and increment the level after emitting when `blockOpeners`
matches.  Returns the emitted line and the level for the next line. -/
def formatLine (lvl : Nat) (l : List Char) : List Char × Nat :=
  let t := trim l
  if t = [] then ([], lvl)
  else
    let lvl1 := if blockClosers t then lvl - 1 else lvl
    (List.replicate (lvl1 * indentSize) ' ' ++ t,
     if blockOpeners t then lvl1 + 1 else lvl1)

/-- The formatter loop over all lines, threading `indentLevel`. -/
def formatLines : Nat → List (List Char) → List (List Char)
  | _, [] => []
  | lvl, l :: ls =>
    let p := formatLine lvl l
    p.1 :: formatLines p.2 ls

/-- `provideDocumentFormattingEdits`: the whole-document text transform
(split on newlines, reindent starting at level 0, join with newlines). -/
def format (text : List Char) : List Char :=
  joinNl (formatLines 0 (splitNl text))

/-- The two Monarch lexer states of the tokenizer (`root` and `string`). -/
inductive LexState
  | root
  | string
deriving DecidableEq, Repr

/-- The `keywords` list of the Monarch tokenizer, in source order. -/
def tokenizerKeywords : List (List Char) :=
  ["graph", "flowchart", "TD", "DT", "TB", "BT", "RL", "LR", "subgraph",
   "end", "classDiagram", "stateDiagram", "stateDiagram-v2",
   "sequenceDiagram", "gantt", "pie", "erDiagram", "journey", "gitGraph",
   "mindmap", "timeline", "zenuml", "sankey-beta", "quadrantChart",
   "xyChart", "block-beta", "class", "participant", "actor", "loop", "alt",
   "opt", "rect", "note", "over", "right", "left", "of", "box", "title",
   "accTitle", "accDescr", "section", "click", "callback", "linkStyle",
   "classDef", "style", "fill", "stroke", "stroke-width",
   "color"].map String.toList

/-- One step of the Monarch tokenizer in the `root` state at input
`c :: rest`.  The rules are tried in source order: `/%%.*$/` (comment to end
of line), the delimiter alternation `/\[|\]|\(|\)|\{|\}|>|--|==|:/`, `/"/`
(push the `string` state), `/[a-zA-Z][\w$]*/` (keyword or identifier).
When no rule matches, Monarch consumes one character with the default token
class `source`.  Returns (consumed text, remaining input, token class,
next state). -/
def rootStep (c : Char) (rest : List Char) : List Char × List Char × String × LexState :=
  if c == '%' && rest.head? == some '%' then
    (c :: rest, [], "comment", LexState.root)
  else if c == '[' || c == ']' || c == '(' || c == ')' || c == '\x7b' ||
      c == '\x7d' || c == '>' || c == ':' then
    ([c], rest, "delimiter", LexState.root)
  else if c == '-' then
    match rest with
    | '-' :: r => (['-', '-'], r, "delimiter", LexState.root)
    | _ => ([c], rest, "source", LexState.root)
  else if c == '=' then
    match rest with
    | '=' :: r => (['=', '='], r, "delimiter", LexState.root)
    | _ => ([c], rest, "source", LexState.root)
  else if c == '"' then
    ([c], rest, "string", LexState.string)
  else if isAlphaAZ c then
    (c :: rest.takeWhile isWordDollar, rest.dropWhile isWordDollar,
     if tokenizerKeywords.contains (c :: rest.takeWhile isWordDollar) then
       "keyword"
     else "identifier",
     LexState.root)
  else
    ([c], rest, "source", LexState.root)

/-- One step of the tokenizer in the `string` state: `/[^\\"]+/` (string
content), `/"/` (pop back to `root`); a backslash matches no rule and is
consumed as the default token class. -/
def stringStep (c : Char) (rest : List Char) : List Char × List Char × String × LexState :=
  if !(c == '\\') && !(c == '"') then
    (c :: rest.takeWhile (fun d => !(d == '\\') && !(d == '"')),
     rest.dropWhile (fun d => !(d == '\\') && !(d == '"')),
     "string", LexState.string)
  else if c == '"' then
    ([c], rest, "string", LexState.root)
  else
    ([c], rest, "source", LexState.string)

/-- One tokenizer step in either state. -/
def tokStep : LexState → Char → List Char → List Char × List Char × String × LexState
  | LexState.root, c, rest => rootStep c rest
  | LexState.string, c, rest => stringStep c rest

/-- Fuel-indexed tokenizer loop; every step consumes at least one character,
so `fuel = length of the input` always suffices (`classify` below). -/
def classifyAux : Nat → LexState → List Char → List (List Char × String) × LexState
  | 0, st, _ => ([], st)
  | _ + 1, st, [] => ([], st)
  | fuel + 1, st, c :: rest =>
    let s := tokStep st c rest
    let p := classifyAux fuel s.2.2.2 s.2.1
    ((s.1, s.2.2.1) :: p.1, p.2)

/-- `classify line state`: the list of classified spans of one line together
with the state handed to the next line. -/
def classify (st : LexState) (cs : List Char) : List (List Char × String) × LexState :=
  classifyAux cs.length st cs

/-- The location payload `error.hash.loc` destructured by the validation
`catch` block. -/
structure ErrLoc where
  first_line : Int
  last_line : Int
  first_column : Int
  last_column : Int
deriving DecidableEq, Repr

/-- `monaco.MarkerSeverity`. -/
inductive MarkerSeverity
  | Hint
  | Info
  | Warning
  | Error
deriving DecidableEq, Repr

/-- A Monaco model marker as constructed by the validation logic. -/
structure Marker where
  startLineNumber : Int
  startColumn : Int
  endLineNumber : Int
  endColumn : Int
  message : String
  severity : MarkerSeverity
deriving DecidableEq, Repr

/-- The caught validator error: `message` is `none` when absent and
`some ""` when empty (both are falsy for JavaScript `||`); `loc` is `some`
exactly when `error.hash && error.hash.loc` is truthy. -/
structure ParseError where
  message : Option String
  loc : Option ErrLoc
deriving DecidableEq, Repr

/-- JavaScript `error.message || "Syntax Error"`. -/
def msgOrFallback : Option String → String
  | some m => if m = "" then "Syntax Error" else m
  | none => "Syntax Error"

/-- The marker list built by the `catch` block of `validate`: one marker at
the error's span when `error.hash.loc` is present, else one marker anchored
at (1,1,1,1); in both branches the severity is `Error` and the message is
`error.message || "Syntax Error"`. -/
def markersForError (e : ParseError) : List Marker :=
  match e.loc with
  | some loc =>
    [{ startLineNumber := loc.first_line, startColumn := loc.first_column,
       endLineNumber := loc.last_line, endColumn := loc.last_column,
       message := msgOrFallback e.message, severity := MarkerSeverity.Error }]
  | none =>
    [{ startLineNumber := 1, startColumn := 1, endLineNumber := 1,
       endColumn := 1, message := msgOrFallback e.message,
       severity := MarkerSeverity.Error }]

/-- The marker set passed to `setModelMarkers` for one settled validation:
`[]` when `mermaid.parse` succeeded, `markersForError e` when it threw `e`. -/
def validateMarkers : Option ParseError → List Marker
  | none => []
  | some e => markersForError e

/-- State of the diagnostics pipeline (the `useEffect` over `[value]` in the
editor).  `latest` is the id of the most recent edit (ids increase with edit
recency; each id stands for one buffer content captured by the `validate`
closure).  `pending` is the edit whose 500 ms debounce timer is armed, if
any (at most one: the effect cleanup runs `clearTimeout` before the next
timer is armed).  `inflight` are the edits whose `validate` call has started
(timer fired) and whose `mermaid.parse` has not yet settled.  `lastApplied`
records which edit's result the marker set currently reflects. -/
structure PState where
  latest : Nat
  pending : Option Nat
  inflight : List Nat
  lastApplied : Option Nat
deriving DecidableEq, Repr

/-- Events driving the diagnostics pipeline: a buffer edit (with the new
buffer content), the debounce timer firing, and an in-flight validation
settling (its `mermaid.parse` resolving or throwing, after which the source
unconditionally calls `setModelMarkers`). -/
inductive PEvent
  | edit (id : Nat) (content : List Char)
  | timerFire
  | resolve (id : Nat)
deriving DecidableEq, Repr

/-- One transition of the diagnostics pipeline, straight from the source:
an edit cancels the pending timer and arms a new one for itself regardless
of its content (there is no blank-buffer check in the effect); a timer fire
starts validating the pending edit; a resolution applies its marker set
unconditionally — the source has no sequence number or liveness flag, so
`lastApplied` becomes the resolved edit no matter how old it is.  Events
that cannot occur (firing with no armed timer, resolving a validation that
never started, an edit id that is not fresh) are rejected with `none`. -/
def pstep (s : PState) : PEvent → Option PState
  | PEvent.edit id _ =>
    if s.latest < id then
      some { s with latest := id, pending := some id }
    else none
  | PEvent.timerFire =>
    match s.pending with
    | some id => some { s with pending := none, inflight := id :: s.inflight }
    | none => none
  | PEvent.resolve id =>
    if id ∈ s.inflight then
      some { s with inflight := s.inflight.erase id, lastApplied := some id }
    else none

/-- Run the pipeline over a sequence of events. -/
def prun (s : PState) : List PEvent → Option PState
  | [] => some s
  | e :: es =>
    match pstep s e with
    | some s' => prun s' es
    | none => none

/-- The pipeline before any edit. -/
def pinit : PState := { latest := 0, pending := none, inflight := [], lastApplied := none }

/-- Claim C1 as a proposition over the pipeline: whenever the result for a
strictly newer edit `b` has already been applied (resolve `b` occurs in the
executed prefix) and the older edit `a` resolves afterwards, `a`'s result is
not applied — the marker set never ends up reflecting `a`. -/
def noStaleOverwrite : Prop :=
  ∀ (pre : List PEvent) (a b : Nat) (s : PState),
    a < b → PEvent.resolve b ∈ pre →
    prun pinit (pre ++ [PEvent.resolve a]) = some s →
    s.lastApplied ≠ some a

/-- Claim C5 as a proposition over the pipeline: an edit whose new content
is empty or whitespace-only leaves no timer armed. -/
def blankSkipsTimer : Prop :=
  ∀ (s s' : PState) (id : Nat) (content : List Char),
    trim content = [] → pstep s (PEvent.edit id content) = some s' →
    s'.pending = none

/-- Synchronous decision at the head of the viewer's `renderDiagram`
(MermaidViewer.tsx): when `diagram.trim()` is empty the viewer clears its
rendered output, clears its error state, reports `null` through
`onRenderComplete`, and returns without invoking `mermaid.render`;
otherwise it proceeds to render. -/
inductive RenderAction
  | skipBlank
  | invokeRender
deriving DecidableEq, Repr

/-- The blank-input branch of `renderDiagram`. -/
def renderDiagram (diagram : List Char) : RenderAction :=
  if trim diagram = [] then RenderAction.skipBlank else RenderAction.invokeRender

/-- The word-range Monaco computes around the cursor, passed through
unchanged into every suggestion. -/
structure CRange where
  startLineNumber : Nat
  endLineNumber : Nat
  startColumn : Nat
  endColumn : Nat
deriving DecidableEq, Repr

/-- `monaco.languages.CompletionItemKind` (the two kinds used). -/
inductive CompletionItemKind
  | Keyword
  | Snippet
deriving DecidableEq, Repr

/-- One completion suggestion as built by `provideCompletionItems`. -/
structure Suggestion where
  label : String
  kind : CompletionItemKind
  insertText : String
  range : CRange
  detail : Option String
  insertAsSnippet : Bool
deriving DecidableEq, Repr

/-- The `keywords` list local to `provideCompletionItems`, in source order. -/
def completionKeywords : List String :=
  ["graph", "flowchart", "TD", "TB", "BT", "RL", "LR", "subgraph", "end",
   "classDiagram", "stateDiagram-v2", "sequenceDiagram", "gantt", "pie",
   "erDiagram", "journey", "participant", "actor", "loop", "alt", "opt",
   "rect", "note", "classDef", "style", "click"]

/-- One element of the `SNIPPETS` array: label, body, detail string. -/
structure SnippetEntry where
  label : String
  insertText : String
  detail : String
deriving DecidableEq, Repr

/-- The `SNIPPETS` array, bodies transcribed verbatim from the source. -/
def SNIPPETS : List SnippetEntry :=
  [{ label := "Flowchart (TD)",
     insertText := "graph TD\n    A[Start] --> B\x7bDecision\x7d\n    B -->|Yes| C[OK]\n    B -->|No| D[Cancel]",
     detail := "Top-Down Flowchart" },
   { label := "Flowchart (LR)",
     insertText := "graph LR\n    A[Start] --> B\x7bDecision\x7d\n    B -->|Yes| C[OK]\n    B -->|No| D[Cancel]",
     detail := "Left-Right Flowchart" },
   { label := "Sequence Diagram",
     insertText := "sequenceDiagram\n    participant Alice\n    participant Bob\n    Alice->>John: Hello John, how are you?\n    loop Healthcheck\n        John->>John: Fight against hypochondria\n    end\n    Note right of John: Rational thoughts <br/>prevail!\n    John-->>Alice: Great!\n    John->>Bob: How about you?\n    Bob-->>John: Jolly good!",
     detail := "Interaction Diagram" },
   { label := "Class Diagram",
     insertText := "classDiagram\n    Animal <|-- Duck\n    Animal <|-- Fish\n    Animal <|-- Zebra\n    class Animal\x7b\n        +int age\n        +String gender\n        +isMammal()\n        +mate()\n    \x7d\n    class Duck\x7b\n        +String beakColor\n        +swim()\n        +quack()\n    \x7d",
     detail := "OO Structure" },
   { label := "State Diagram",
     insertText := "stateDiagram-v2\n    [*] --> Still\n    Still --> [*]\n    Still --> Moving\n    Moving --> Still\n    Moving --> Crash\n    Crash --> [*]",
     detail := "State Machine" },
   { label := "ER Diagram",
     insertText := "erDiagram\n    CUSTOMER ||--o\x7b ORDER : places\n    ORDER ||--|\x7b LINE-ITEM : contains\n    CUSTOMER \x7d|..|\x7b DELIVERY-ADDRESS : uses",
     detail := "Entity Relationship" },
   { label := "Gantt Chart",
     insertText := "gantt\n    title A Gantt Diagram\n    dateFormat  YYYY-MM-DD\n    section Section\n    A task           :a1, 2014-01-01, 30d\n    Another task     :after a1  , 20d\n    section Another\n    Task in sec      :2014-01-12  , 12d\n    another task      : 24d",
     detail := "Project Schedule" },
   { label := "Pie Chart",
     insertText := "pie title Pets adopted by volunteers\n    \"Dogs\" : 386\n    \"Cats\" : 85\n    \"Rats\" : 15",
     detail := "Circular Statistics" },
   { label := "Mindmap",
     insertText := "mindmap\n  root((mindmap))\n    Origins\n      Long history\n      ::icon(fa fa-book)\n      Popularisation\n        British popular psychology author Tony Buzan\n    Research\n      On effectiveness<br/>and features\n      On Automatic creation\n        Uses\n            Creative techniques\n            Strategic planning\n            Argument mapping",
     detail := "Brainstorming" },
   { label := "GitGraph",
     insertText := "gitGraph\n    commit\n    commit\n    branch develop\n    checkout develop\n    commit\n    commit\n    checkout main\n    merge develop\n    commit",
     detail := "Git History" },
   { label := "User Journey",
     insertText := "journey\n    title My working day\n    section Go to work\n      Make tea: 5: Me\n      Go upstairs: 3: Me\n      Do work: 1: Me, Cat\n    section Go home\n      Go downstairs: 5: Me\n      Sit down: 5: Me",
     detail := "User Experience" }]

/-- `provideCompletionItems`: one `Keyword` suggestion per entry of
`completionKeywords` (insert text = the keyword, no detail) followed by one
`Snippet` suggestion per `SNIPPETS` entry (insert text = its body, detail =
its detail string, inserted as a snippet), all carrying the host-computed
word range.  Nothing is filtered or ranked. -/
def provideCompletionItems (range : CRange) : List Suggestion :=
  (completionKeywords.map fun k =>
    { label := k, kind := CompletionItemKind.Keyword, insertText := k,
      range := range, detail := none, insertAsSnippet := false }) ++
  (SNIPPETS.map fun sn =>
    { label := sn.label, kind := CompletionItemKind.Snippet,
      insertText := sn.insertText, range := range, detail := some sn.detail,
      insertAsSnippet := true })

/-- Claim C7's description of snippet candidates: each Snippet Entry yields
a candidate whose insert text is its body and whose detail equals its
label. -/
def snippetDetailIsLabel : Prop :=
  ∀ (r : CRange), ∀ sn ∈ SNIPPETS,
    ∃ s ∈ provideCompletionItems r,
      s.insertText = sn.insertText ∧ s.detail = some sn.label

/-- The host registry touched by `handleEditorWillMount`: the registered
language ids and, per registration call of the source, the language ids a
provider has been registered for. -/
structure MonacoState where
  languages : List String
  monarchTokensProviders : List String
  languageConfigurations : List String
  completionItemProviders : List String
  hoverProviders : List String
  documentFormattingEditProviders : List String
deriving DecidableEq, Repr

/-- The body of the registration branch: `monaco.languages.register({ id:
"mermaid" })` followed by one registration call per provider kind. -/
def registerMermaidLanguage (st : MonacoState) : MonacoState :=
  { languages := "mermaid" :: st.languages,
    monarchTokensProviders := "mermaid" :: st.monarchTokensProviders,
    languageConfigurations := "mermaid" :: st.languageConfigurations,
    completionItemProviders := "mermaid" :: st.completionItemProviders,
    hoverProviders := "mermaid" :: st.hoverProviders,
    documentFormattingEditProviders := "mermaid" :: st.documentFormattingEditProviders }

/-- `handleEditorWillMount`: register everything only when no language with
id "mermaid" is present in `monaco.languages.getLanguages()`. -/
def handleEditorWillMount (st : MonacoState) : MonacoState :=
  if st.languages.any (fun l => l == "mermaid") then st
  else registerMermaidLanguage st

/-- Keyword occurrence at a word boundary, stated the way claim C9 words it:
the trimmed line is the keyword followed either by nothing or by a non-word
character. -/
def kwAtBoundary (k t : List Char) : Prop :=
  ∃ rest, t = k ++ rest ∧
    (rest = [] ∨ ∃ c rest2, rest = c :: rest2 ∧ isWordChar c = false)

/-! Helper lemmas about trimming. -/

theorem trimL_replicate_space (n : Nat) (t : List Char) :
    trimL (List.replicate n ' ' ++ t) = trimL t := by
  induction n with
  | zero => rfl
  | succ n ih =>
    rw [List.replicate_succ, List.cons_append]
    show List.dropWhile isWS _ = _
    rw [List.dropWhile_cons]
    simpa using ih

theorem head_not_ws_of_trimL_fix {l : List Char} (h : trimL l = l) :
    ∀ a w, l = a :: w → isWS a = false := by
  intro a w hl
  subst hl
  unfold trimL at h
  rw [List.dropWhile_cons] at h
  by_contra hws
  rw [Bool.not_eq_false] at hws
  rw [if_pos hws] at h
  have hle := (List.dropWhile_sublist (l := w) isWS).length_le
  rw [h] at hle
  simp at hle

theorem trimL_of_trimR_of_fix {u : List Char} (h : trimL u = u) :
    trimL (trimR u) = trimR u := by
  cases htr : trimR u with
  | nil => rfl
  | cons a v =>
    have hpre : trimR u <+: u := List.rdropWhile_prefix isWS u
    obtain ⟨s, hs⟩ := hpre
    rw [htr] at hs
    have ha : isWS a = false :=
      head_not_ws_of_trimL_fix h a (v ++ s) (by rw [← hs]; simp)
    show List.dropWhile isWS (a :: v) = a :: v
    rw [List.dropWhile_cons, ha]
    simp

theorem trim_trim (l : List Char) : trim (trim l) = trim l := by
  show trimR (trimL (trimR (trimL l))) = trimR (trimL l)
  rw [trimL_of_trimR_of_fix (show trimL (trimL l) = trimL l from
    List.dropWhile_idempotent isWS l)]
  exact List.rdropWhile_idempotent isWS (trimL l)

theorem trim_replicate_space {t : List Char} (n : Nat) (h : trim t = t) :
    trim (List.replicate n ' ' ++ t) = t := by
  show trimR (trimL _) = t
  rw [trimL_replicate_space]
  exact h

theorem mem_of_mem_trim {c : Char} {l : List Char} (h : c ∈ trim l) : c ∈ l := by
  have h1 : trim l <+: trimL l := List.rdropWhile_prefix isWS (trimL l)
  have h2 : List.Sublist (trimL l) l := List.dropWhile_sublist isWS
  exact h2.subset (h1.sublist.subset h)

/-! Helper lemmas about splitting on and joining with newlines. -/

theorem splitNl_cons_nl (r : List Char) : splitNl ('\n' :: r) = [] :: splitNl r := by
  conv_lhs => unfold splitNl
  rw [if_pos rfl]

theorem splitNl_cons_ne {c : Char} {r : List Char} {h : List Char}
    {t : List (List Char)} (hc : ¬c = '\n') (he : splitNl r = h :: t) :
    splitNl (c :: r) = (c :: h) :: t := by
  conv_lhs => unfold splitNl
  rw [if_neg hc, he]

theorem splitNl_ne_nil (cs : List Char) : splitNl cs ≠ [] := by
  induction cs with
  | nil => simp [splitNl]
  | cons c r ih =>
    by_cases hc : c = '\n'
    · subst hc
      rw [splitNl_cons_nl]
      simp
    · cases he : splitNl r with
      | nil => exact absurd he ih
      | cons h t =>
        rw [splitNl_cons_ne hc he]
        simp

theorem no_nl_mem_splitNl (cs : List Char) : ∀ l ∈ splitNl cs, '\n' ∉ l := by
  induction cs with
  | nil =>
    intro l hl
    simp [splitNl] at hl
    simp [hl]
  | cons c r ih =>
    intro l hl
    by_cases hc : c = '\n'
    · subst hc
      rw [splitNl_cons_nl, List.mem_cons] at hl
      rcases hl with hl | hl
      · simp [hl]
      · exact ih l hl
    · cases he : splitNl r with
      | nil => exact absurd he (splitNl_ne_nil r)
      | cons h t =>
        rw [splitNl_cons_ne hc he, List.mem_cons] at hl
        rcases hl with hl | hl
        · subst hl
          intro hmem
          rw [List.mem_cons] at hmem
          rcases hmem with hmem | hmem
          · exact hc hmem.symm
          · exact ih h (by rw [he]; exact List.mem_cons_self h t) hmem
        · exact ih l (by rw [he]; exact List.mem_cons_of_mem h hl)

theorem splitNl_of_no_nl {l : List Char} (h : '\n' ∉ l) : splitNl l = [l] := by
  induction l with
  | nil => rfl
  | cons c r ih =>
    have hc : ¬c = '\n' := fun hc => h (by rw [hc]; exact List.mem_cons_self _ _)
    have hr : splitNl r = [r] := ih (fun hm => h (List.mem_cons_of_mem c hm))
    rw [splitNl_cons_ne hc hr]

theorem splitNl_append {l : List Char} (rest : List Char) (h : '\n' ∉ l) :
    splitNl (l ++ '\n' :: rest) = l :: splitNl rest := by
  induction l with
  | nil =>
    show splitNl ('\n' :: rest) = [] :: splitNl rest
    exact splitNl_cons_nl rest
  | cons c r ih =>
    have hc : ¬c = '\n' := fun hc => h (by rw [hc]; exact List.mem_cons_self _ _)
    have hr := ih (fun hm => h (List.mem_cons_of_mem c hm))
    show splitNl (c :: (r ++ '\n' :: rest)) = _
    rw [splitNl_cons_ne hc hr]

theorem splitNl_joinNl : ∀ (ls : List (List Char)), ls ≠ [] →
    (∀ l ∈ ls, '\n' ∉ l) → splitNl (joinNl ls) = ls := by
  intro ls
  induction ls with
  | nil => intro h; exact absurd rfl h
  | cons l ls ih =>
    intro _ h2
    cases ls with
    | nil => exact splitNl_of_no_nl (h2 l (List.mem_cons_self _ _))
    | cons l' ls' =>
      show splitNl (l ++ '\n' :: joinNl (l' :: ls')) = _
      rw [splitNl_append _ (h2 l (List.mem_cons_self _ _))]
      rw [ih (by simp) (fun x hx => h2 x (List.mem_cons_of_mem l hx))]

/-! Helper lemmas about the formatter. -/

theorem formatLine_blank {l : List Char} (lvl : Nat) (ht : trim l = []) :
    formatLine lvl l = ([], lvl) := by
  simp [formatLine, ht]

theorem formatLine_nonblank {l : List Char} (lvl : Nat) (ht : trim l ≠ []) :
    formatLine lvl l =
      (List.replicate ((if blockClosers (trim l) then lvl - 1 else lvl) * indentSize) ' '
         ++ trim l,
       if blockOpeners (trim l) then
         (if blockClosers (trim l) then lvl - 1 else lvl) + 1
       else if blockClosers (trim l) then lvl - 1 else lvl) := by
  simp [formatLine, ht]

theorem formatLine_idem_line (lvl : Nat) (l : List Char) :
    formatLine lvl (formatLine lvl l).1 = formatLine lvl l := by
  by_cases ht : trim l = []
  · rw [formatLine_blank lvl ht]
    exact formatLine_blank lvl rfl
  · rw [formatLine_nonblank lvl ht]
    have htrim :
        trim (List.replicate ((if blockClosers (trim l) then lvl - 1 else lvl) * indentSize) ' '
          ++ trim l) = trim l :=
      trim_replicate_space _ (trim_trim l)
    rw [formatLine_nonblank lvl (by rw [htrim]; exact ht), htrim]

theorem formatLines_idem : ∀ (ls : List (List Char)) (lvl : Nat),
    formatLines lvl (formatLines lvl ls) = formatLines lvl ls := by
  intro ls
  induction ls with
  | nil => intro lvl; rfl
  | cons l ls ih =>
    intro lvl
    show formatLines lvl ((formatLine lvl l).1 :: formatLines (formatLine lvl l).2 ls) = _
    show (formatLine lvl (formatLine lvl l).1).1 ::
        formatLines (formatLine lvl (formatLine lvl l).1).2
          (formatLines (formatLine lvl l).2 ls) = _
    rw [formatLine_idem_line lvl l, ih (formatLine lvl l).2]
    rfl

theorem formatLines_ne_nil {ls : List (List Char)} (lvl : Nat) (h : ls ≠ []) :
    formatLines lvl ls ≠ [] := by
  cases ls with
  | nil => exact absurd rfl h
  | cons l ls => simp [formatLines]

theorem formatLines_no_nl : ∀ (ls : List (List Char)) (lvl : Nat),
    (∀ l ∈ ls, '\n' ∉ l) → ∀ out ∈ formatLines lvl ls, '\n' ∉ out := by
  intro ls
  induction ls with
  | nil => intro lvl _ out hout; simp [formatLines] at hout
  | cons l ls ih =>
    intro lvl h out hout
    rw [show formatLines lvl (l :: ls) =
        (formatLine lvl l).1 :: formatLines (formatLine lvl l).2 ls from rfl,
      List.mem_cons] at hout
    rcases hout with hout | hout
    · subst hout
      by_cases ht : trim l = []
      · rw [formatLine_blank lvl ht]
        simp
      · rw [formatLine_nonblank lvl ht]
        intro hmem
        rw [List.mem_append] at hmem
        rcases hmem with hmem | hmem
        · have := List.eq_of_mem_replicate hmem
          simp at this
        · exact h l (List.mem_cons_self _ _) (mem_of_mem_trim hmem)
    · exact ih (formatLine lvl l).2 (fun x hx => h x (List.mem_cons_of_mem l hx)) out hout

/-- C3: the formatter is idempotent — formatting an already formatted
document changes nothing: `format (format x) = format x` for every text. -/
theorem format_idempotent (x : List Char) : format (format x) = format x := by
  show joinNl (formatLines 0 (splitNl (joinNl (formatLines 0 (splitNl x))))) = _
  rw [splitNl_joinNl _ (formatLines_ne_nil 0 (splitNl_ne_nil x))
      (formatLines_no_nl _ 0 (no_nl_mem_splitNl x)),
    formatLines_idem]
  rfl

/-- C4: on the concrete input `graph TD\n    A-->B\nend` the formatter emits
`graph TD` unindented, `A-->B` indented by one level of four spaces, and
`end` dedented back to level 0 — the output equals the input text. -/
theorem format_graph_example :
    format ("graph TD\n    A-->B\nend".toList) = "graph TD\n    A-->B\nend".toList := by
  decide

/-! The boundary test of the formatter regexes, characterised. -/

theorem startsWithKw_iff : ∀ (k t : List Char), startsWithKw k t = true ↔ kwAtBoundary k t := by
  intro k
  induction k with
  | nil =>
    intro t
    cases t with
    | nil =>
      constructor
      · intro _; exact ⟨[], rfl, Or.inl rfl⟩
      · intro _; rfl
    | cons c t' =>
      constructor
      · intro h
        refine ⟨c :: t', rfl, Or.inr ⟨c, t', rfl, ?_⟩⟩
        have : (!isWordChar c) = true := h
        simpa using this
      · rintro ⟨rest, hre, hd⟩
        simp only [List.nil_append] at hre
        subst hre
        rcases hd with hd | ⟨c2, r2, hre2, hw⟩
        · exact absurd hd (by simp)
        · rw [List.cons.injEq] at hre2
          show (!isWordChar c) = true
          rw [hre2.1, hw]
          rfl
  | cons a k ih =>
    intro t
    cases t with
    | nil =>
      constructor
      · intro h; exact absurd h (by simp [startsWithKw])
      · rintro ⟨rest, hre, _⟩
        exact absurd hre (by simp)
    | cons b t' =>
      show (a == b && startsWithKw k t') = true ↔ _
      rw [Bool.and_eq_true, beq_iff_eq, ih t']
      constructor
      · rintro ⟨hab, rest, hre, hd⟩
        exact ⟨rest, by rw [List.cons_append, ← hab, hre], hd⟩
      · rintro ⟨rest, hre, hd⟩
        rw [List.cons_append, List.cons.injEq] at hre
        exact ⟨hre.1.symm, rest, hre.2, hd⟩

/-- C9: the formatter's indent triggers depend only on the leading keyword
of the trimmed line at a word boundary: `blockClosers` matches exactly the
lines starting with `end` followed by nothing or a non-word character (so
`end %% note` matches and `endpoint` does not), `blockOpeners` matches
exactly the lines starting with one of the fourteen opener keywords at a
word boundary regardless of trailing content, a matching closer line is
emitted at the decremented level, and a matching opener line raises the
level for the next line by one. -/
theorem indent_triggers_word_boundary (t : List Char) (lvl : Nat) :
    (blockClosers t = true ↔ kwAtBoundary endKw t) ∧
    (blockOpeners t = true ↔ ∃ k ∈ blockOpenerKws, kwAtBoundary k t) ∧
    (∀ l, blockClosers (trim l) = true → trim l ≠ [] →
      (formatLine lvl l).1 = List.replicate ((lvl - 1) * indentSize) ' ' ++ trim l) ∧
    (∀ l, blockOpeners (trim l) = true → blockClosers (trim l) = false → trim l ≠ [] →
      (formatLine lvl l).2 = lvl + 1) ∧
    blockClosers ("end %% note".toList) = true ∧
    blockClosers ("endpoint".toList) = false := by
  refine ⟨startsWithKw_iff endKw t, ?_, ?_, ?_, by decide, by decide⟩
  · unfold blockOpeners
    rw [List.any_eq_true]
    constructor
    · rintro ⟨k, hk, h⟩
      exact ⟨k, hk, (startsWithKw_iff k t).mp h⟩
    · rintro ⟨k, hk, h⟩
      exact ⟨k, hk, (startsWithKw_iff k t).mpr h⟩
  · intro l hc ht
    rw [formatLine_nonblank lvl ht, hc]
    simp
  · intro l ho hc ht
    rw [formatLine_nonblank lvl ht, hc, ho]
    simp

/-- Witness for C9 at the concrete closer line `end %% note` and level 1:
the line is recognised as a closer and emitted dedented to level 0. -/
theorem indent_triggers_word_boundary_witness :
    (formatLine 1 ("end %% note".toList)).1 =
      List.replicate ((1 - 1) * indentSize) ' ' ++ trim ("end %% note".toList) :=
  (indent_triggers_word_boundary [] 1).2.2.1 ("end %% note".toList)
    (by decide) (by decide)

/-! The tokenizer consumes at least one character per step and loses none. -/

theorem tokStep_append (st : LexState) (c : Char) (rest : List Char) :
    (tokStep st c rest).1 ++ (tokStep st c rest).2.1 = c :: rest := by
  cases st with
  | root =>
    show (rootStep c rest).1 ++ (rootStep c rest).2.1 = c :: rest
    unfold rootStep
    repeat' split
    all_goals simp_all [List.takeWhile_append_dropWhile]
  | string =>
    show (stringStep c rest).1 ++ (stringStep c rest).2.1 = c :: rest
    unfold stringStep
    repeat' split
    all_goals simp_all [List.takeWhile_append_dropWhile]

theorem tokStep_rest_length (st : LexState) (c : Char) (rest : List Char) :
    (tokStep st c rest).2.1.length ≤ rest.length := by
  cases st with
  | root =>
    show (rootStep c rest).2.1.length ≤ rest.length
    unfold rootStep
    repeat' split
    all_goals simp_all
    all_goals exact (List.dropWhile_sublist _).length_le
  | string =>
    show (stringStep c rest).2.1.length ≤ rest.length
    unfold stringStep
    repeat' split
    all_goals simp_all
    all_goals exact (List.dropWhile_sublist _).length_le

theorem classifyAux_reconstructs : ∀ (fuel : Nat) (st : LexState) (cs : List Char),
    cs.length ≤ fuel →
    List.flatten ((classifyAux fuel st cs).1.map Prod.fst) = cs := by
  intro fuel
  induction fuel with
  | zero =>
    intro st cs h
    rw [Nat.le_zero, List.length_eq_zero] at h
    subst h
    rfl
  | succ fuel ih =>
    intro st cs h
    cases cs with
    | nil => rfl
    | cons c rest =>
      show (tokStep st c rest).1 ++
        List.flatten ((classifyAux fuel (tokStep st c rest).2.2.2
          (tokStep st c rest).2.1).1.map Prod.fst) = c :: rest
      rw [ih (tokStep st c rest).2.2.2 (tokStep st c rest).2.1
        (by
          have h1 := tokStep_rest_length st c rest
          have h2 : rest.length + 1 ≤ fuel + 1 := h
          omega)]
      exact tokStep_append st c rest

/-- C6: for every input line and every lexer state, `classify` terminates
(it is a total function), every character is consumed by some rule or the
one-character default consumption, and the concatenation of the classified
span texts, in order, reconstructs the original line exactly. -/
theorem classify_reconstructs (st : LexState) (cs : List Char) :
    List.flatten ((classify st cs).1.map Prod.fst) = cs :=
  classifyAux_reconstructs cs.length st cs (Nat.le_refl _)

/-! The diagnostics pipeline. -/

theorem prun_append (s : PState) (l1 l2 : List PEvent) :
    prun s (l1 ++ l2) = (prun s l1).bind fun s1 => prun s1 l2 := by
  induction l1 generalizing s with
  | nil => rfl
  | cons e l1 ih =>
    show prun s (e :: (l1 ++ l2)) = (prun s (e :: l1)).bind fun s1 => prun s1 l2
    cases hp : pstep s e with
    | none => simp [prun, hp]
    | some s' =>
      simp only [prun, hp]
      exact ih s'

/-- C1 (counterexample): the claim that a stale asynchronous result never
overwrites the marker set of a strictly newer edit is false for the code:
after edit 1 fires and starts validating, edit 2 fires, validates and
applies its result, and then edit 1's validation resolves, the source
applies edit 1's stale result over edit 2's marker set — the code has no
sequence-number or liveness check on resolutions. -/
theorem stale_result_can_overwrite : ¬ noStaleOverwrite := by
  intro h
  have hx := h
    [PEvent.edit 1 ['a'], PEvent.timerFire, PEvent.edit 2 ['b'],
     PEvent.timerFire, PEvent.resolve 2] 1 2
    { latest := 2, pending := none, inflight := [], lastApplied := some 1 }
    (by decide) (by decide) (by decide)
  exact hx (by decide)

/-- C1 (amended): the pipeline cancels only pending (not yet fired) timers;
every validation that resolves applies its marker set unconditionally, so
the marker set reflects the most recently resolved validation — last
resolver wins, regardless of edit recency. -/
theorem resolve_always_applies (evs : List PEvent) (e : Nat) (s : PState)
    (h : prun pinit (evs ++ [PEvent.resolve e]) = some s) :
    s.lastApplied = some e := by
  rw [prun_append] at h
  cases h1 : prun pinit evs with
  | none => rw [h1] at h; exact absurd h (by simp)
  | some s1 =>
    rw [h1] at h
    have h2 : prun s1 [PEvent.resolve e] = some s := h
    cases hp : pstep s1 (PEvent.resolve e) with
    | none =>
      rw [show prun s1 [PEvent.resolve e] = none from by simp [prun, hp]] at h2
      exact absurd h2 (by simp)
    | some s2 =>
      rw [show prun s1 [PEvent.resolve e] = some s2 from by simp [prun, hp]] at h2
      rw [Option.some.injEq] at h2
      subst h2
      simp only [pstep] at hp
      by_cases hm : e ∈ s1.inflight
      · rw [if_pos hm, Option.some.injEq] at hp
        rw [← hp]
      · rw [if_neg hm] at hp
        exact absurd hp (by simp)

/-- Witness for the amended C1: resolving edit 1's validation applies edit
1's result. -/
theorem resolve_always_applies_witness :
    ({ latest := 1, pending := none, inflight := [], lastApplied := some 1 } : PState).lastApplied
      = some 1 :=
  resolve_always_applies [PEvent.edit 1 ['a'], PEvent.timerFire] 1
    { latest := 1, pending := none, inflight := [], lastApplied := some 1 }
    (by decide)

/-- C5 (counterexample): the claim that an empty or whitespace-only buffer
change arms no timer is false for the code: the validation effect arms the
500 ms timer on every change, with no blank-buffer check — a whitespace-only
edit leaves a timer armed. -/
theorem blank_edit_still_arms_timer : ¬ blankSkipsTimer := by
  intro h
  have hx := h pinit
    { latest := 1, pending := some 1, inflight := [], lastApplied := none }
    1 [' '] (by decide) (by decide)
  simp at hx

/-- C5 (amended): on every buffer change, including empty or whitespace-only
ones, the pipeline cancels the previous timer and arms a new one for the
change (validation is not skipped by the pipeline); the blank-input
short-circuit lives in the rendering collaborator, whose `renderDiagram`
clears its output, clears its error state and reports null without invoking
the renderer when the buffer trims to empty. -/
theorem edit_arms_timer_viewer_skips_blank (s s' : PState) (id : Nat)
    (content : List Char) (h : pstep s (PEvent.edit id content) = some s') :
    s'.pending = some id ∧
      (trim content = [] → renderDiagram content = RenderAction.skipBlank) := by
  simp only [pstep] at h
  by_cases hl : s.latest < id
  · rw [if_pos hl, Option.some.injEq] at h
    constructor
    · rw [← h]
    · intro ht
      unfold renderDiagram
      rw [if_pos ht]
  · rw [if_neg hl] at h
    exact absurd h (by simp)

/-- Witness for the amended C5: a whitespace-only edit still arms a timer,
while the viewer's blank check skips rendering for it. -/
theorem edit_arms_timer_viewer_skips_blank_witness :
    renderDiagram [' '] = RenderAction.skipBlank ∧
      ({ latest := 1, pending := some 1, inflight := [], lastApplied := none } : PState).pending
        = some 1 :=
  ⟨(edit_arms_timer_viewer_skips_blank pinit
      { latest := 1, pending := some 1, inflight := [], lastApplied := none }
      1 [' '] (by decide)).2 (by decide),
   (edit_arms_timer_viewer_skips_blank pinit
      { latest := 1, pending := some 1, inflight := [], lastApplied := none }
      1 [' '] (by decide)).1⟩

/-! The marker set produced by a settled validation. -/

/-- C2: when validation fails and the error carries a message, the pipeline
produces exactly one marker: at the error's span (firstLine, firstCol,
lastLine, lastCol) when `error.hash.loc` is present, and anchored at
(1,1,1,1) when the error carries no span — in both cases with the error's
message. -/
theorem error_marker_span (e : ParseError) (m : String)
    (hm : e.message = some m) (hne : m ≠ "") :
    (∀ loc, e.loc = some loc →
      markersForError e =
        [{ startLineNumber := loc.first_line, startColumn := loc.first_column,
           endLineNumber := loc.last_line, endColumn := loc.last_column,
           message := m, severity := MarkerSeverity.Error }]) ∧
    (e.loc = none →
      markersForError e =
        [{ startLineNumber := 1, startColumn := 1, endLineNumber := 1,
           endColumn := 1, message := m, severity := MarkerSeverity.Error }]) := by
  have hmsg : msgOrFallback e.message = m := by
    rw [hm]
    show (if m = "" then "Syntax Error" else m) = m
    rw [if_neg hne]
  constructor
  · intro loc hloc
    unfold markersForError
    rw [hloc, hmsg]
  · intro hloc
    unfold markersForError
    rw [hloc, hmsg]

/-- Witness for C2: a failing validation whose error has message "boom" and
span (2,5,3,9) settles to exactly that one marker. -/
theorem error_marker_span_witness :
    markersForError { message := some "boom",
                      loc := some { first_line := 2, last_line := 5,
                                    first_column := 3, last_column := 9 } } =
      [{ startLineNumber := 2, startColumn := 3, endLineNumber := 5,
         endColumn := 9, message := "boom", severity := MarkerSeverity.Error }] :=
  (error_marker_span
    { message := some "boom",
      loc := some { first_line := 2, last_line := 5,
                    first_column := 3, last_column := 9 } }
    "boom" rfl (by decide)).1
    { first_line := 2, last_line := 5, first_column := 3, last_column := 9 } rfl

/-- C10: every marker the validation logic emits has severity `Error`, and
when the caught error carries no message (absent or empty) the marker's
message is the literal fallback "Syntax Error" — in the with-span branch and
in the (1,1,1,1) fallback branch alike. -/
theorem markers_severity_and_fallback (r : Option ParseError) (mk : Marker)
    (hmk : mk ∈ validateMarkers r) :
    mk.severity = MarkerSeverity.Error ∧
    (∀ e, r = some e → (e.message = none ∨ e.message = some "") →
      mk.message = "Syntax Error") := by
  cases r with
  | none => exact absurd hmk (by simp [validateMarkers])
  | some e =>
    have hfields : mk.severity = MarkerSeverity.Error ∧ mk.message = msgOrFallback e.message := by
      show mk.severity = _ ∧ _
      have hmk' : mk ∈ markersForError e := hmk
      cases hloc : e.loc with
      | none =>
        unfold markersForError at hmk'
        rw [hloc] at hmk'
        rw [List.mem_singleton] at hmk'
        rw [hmk']
        exact ⟨rfl, rfl⟩
      | some loc =>
        unfold markersForError at hmk'
        rw [hloc] at hmk'
        rw [List.mem_singleton] at hmk'
        rw [hmk']
        exact ⟨rfl, rfl⟩
    refine ⟨hfields.1, ?_⟩
    rintro e' he' hmm
    rw [Option.some.injEq] at he'
    subst he'
    rw [hfields.2]
    rcases hmm with hx | hx <;> rw [hx] <;> rfl

/-- Witness for C10: an error with no message and no span yields the single
(1,1,1,1) marker with severity `Error` and message "Syntax Error". -/
theorem markers_severity_and_fallback_witness :
    ({ startLineNumber := 1, startColumn := 1, endLineNumber := 1, endColumn := 1,
       message := "Syntax Error", severity := MarkerSeverity.Error } : Marker).severity
        = MarkerSeverity.Error ∧
    ({ startLineNumber := 1, startColumn := 1, endLineNumber := 1, endColumn := 1,
       message := "Syntax Error", severity := MarkerSeverity.Error } : Marker).message
        = "Syntax Error" :=
  ⟨(markers_severity_and_fallback (some { message := none, loc := none }) _ (by decide)).1,
   (markers_severity_and_fallback (some { message := none, loc := none }) _ (by decide)).2
     { message := none, loc := none } rfl (Or.inl rfl)⟩

/-! The completion provider. -/

/-- C7 (counterexample): the claim that each snippet candidate's detail
equals the Snippet Entry's label is false for the code: the provider sets
the candidate detail to the entry's detail string, so no candidate carries
detail "Flowchart (TD)" even though a Snippet Entry with that label exists. -/
theorem snippet_detail_not_label : ¬ snippetDetailIsLabel := by
  intro h
  have hne : SNIPPETS ≠ [] := by decide
  obtain ⟨s, hs, _, hd⟩ :=
    h { startLineNumber := 1, endLineNumber := 1, startColumn := 1, endColumn := 1 }
      (SNIPPETS.head hne) (List.head_mem hne)
  have hlabel : (SNIPPETS.head hne).label = "Flowchart (TD)" := rfl
  rw [hlabel] at hd
  have hall : (provideCompletionItems
      { startLineNumber := 1, endLineNumber := 1, startColumn := 1, endColumn := 1 }).all
      (fun s => !(s.detail == some "Flowchart (TD)")) = true := by decide
  have hx := List.all_eq_true.mp hall s hs
  rw [hd] at hx
  simp at hx

/-- C7 (amended): for every word range, the provider returns the unfiltered,
unranked concatenation of one Keyword candidate per completion keyword
(insert text and label equal to the keyword) and one Snippet candidate per
Snippet Entry (insert text equal to its multi-line body, label equal to its
label, detail equal to its detail string); in particular a candidate with
insert text exactly "graph" is always present, whatever the cursor prefix. -/
theorem completion_candidates (r : CRange) :
    (provideCompletionItems r).length = completionKeywords.length + SNIPPETS.length ∧
    (∀ k ∈ completionKeywords, ∃ s ∈ provideCompletionItems r,
      s.insertText = k ∧ s.label = k ∧ s.kind = CompletionItemKind.Keyword) ∧
    (∀ sn ∈ SNIPPETS, ∃ s ∈ provideCompletionItems r,
      s.insertText = sn.insertText ∧ s.detail = some sn.detail ∧
      s.label = sn.label ∧ s.kind = CompletionItemKind.Snippet) ∧
    (∃ s ∈ provideCompletionItems r, s.insertText = "graph") := by
  refine ⟨?_, ?_, ?_, ?_⟩
  · show (List.map _ completionKeywords ++ List.map _ SNIPPETS).length = _
    rw [List.length_append, List.length_map, List.length_map]
  · intro k hk
    exact ⟨_, List.mem_append_left _ (List.mem_map_of_mem _ hk), rfl, rfl, rfl⟩
  · intro sn hsn
    exact ⟨_, List.mem_append_right _ (List.mem_map_of_mem _ hsn), rfl, rfl, rfl, rfl⟩
  · exact ⟨_, List.mem_append_left _
      (List.mem_map_of_mem _ (show "graph" ∈ completionKeywords by decide)), rfl⟩

/-- Witness for the amended C7: at a concrete range, the keyword "graph"
yields a candidate whose insert text is exactly "graph". -/
theorem completion_candidates_witness :
    ∃ s ∈ provideCompletionItems
        { startLineNumber := 1, endLineNumber := 1, startColumn := 2, endColumn := 5 },
      s.insertText = "graph" ∧ s.label = "graph" ∧ s.kind = CompletionItemKind.Keyword :=
  (completion_candidates
    { startLineNumber := 1, endLineNumber := 1, startColumn := 2, endColumn := 5 }).2.1
    "graph" (by decide)

/-! The guarded language registration. -/

/-- C8: language registration is idempotent and guarded by an existence
check: when the registry already contains the language id "mermaid" the
mount hook performs no registration at all, and running the hook twice
leaves exactly the state of running it once. -/
theorem language_registration_idempotent (st : MonacoState) :
    handleEditorWillMount (handleEditorWillMount st) = handleEditorWillMount st ∧
    ("mermaid" ∈ st.languages → handleEditorWillMount st = st) := by
  by_cases h : st.languages.any (fun l => l == "mermaid") = true
  · have hid : handleEditorWillMount st = st := by
      unfold handleEditorWillMount
      rw [if_pos h]
    constructor
    · rw [hid, hid]
    · intro _
      exact hid
  · constructor
    · rw [show handleEditorWillMount st = registerMermaidLanguage st from by
        unfold handleEditorWillMount; rw [if_neg h]]
      unfold handleEditorWillMount
      rw [if_pos ?_]
      show (registerMermaidLanguage st).languages.any (fun l => l == "mermaid") = true
      rw [List.any_eq_true]
      exact ⟨"mermaid", List.mem_cons_self _ _, by simp⟩
    · intro hmem
      exact absurd (List.any_eq_true.mpr ⟨"mermaid", hmem, by simp⟩) h

/-- Witness for C8: on a registry already containing "mermaid", the mount
hook is the identity. -/
theorem language_registration_idempotent_witness :
    handleEditorWillMount
        { languages := ["mermaid"], monarchTokensProviders := [],
          languageConfigurations := [], completionItemProviders := [],
          hoverProviders := [], documentFormattingEditProviders := [] } =
      { languages := ["mermaid"], monarchTokensProviders := [],
        languageConfigurations := [], completionItemProviders := [],
        hoverProviders := [], documentFormattingEditProviders := [] } :=
  (language_registration_idempotent
    { languages := ["mermaid"], monarchTokensProviders := [],
      languageConfigurations := [], completionItemProviders := [],
      hoverProviders := [], documentFormattingEditProviders := [] }).2
    (by decide)

end Mermaid
